import Mathlib

/-!
Verification of the URL-routing core: a shallow embedding of
`src/include/tscore/Trie.h` (class `Trie<T>`: Insert, Search, Clear, Empty)
and `src/proxy/http/remap/RemapPlugins.cc` (`RemapPlugins::run_plugin` and
`RemapPlugins::run_single_remap`), with theorems settling the spec claims.

Keys are byte sequences (`List Nat`, each entry a byte).  A C pointer that may
be null is modelled as an `Option`.  The 256-slot child array of a trie node is
modelled as a function from byte value to optional child.
-/

set_option autoImplicit false

/-- A trie node, `Trie<T>::Node`: a value pointer (null = `none`), an
`occupied` flag, an integer `rank`, and child pointers indexed by byte. -/
inductive Node (T : Type) : Type where
  | mk (value : Option T) (occupied : Bool) (rank : Int) (children : Nat → Option (Node T)) : Node T

/-- Field `value` of a node (`T *value`). -/
def Node.value {T : Type} : Node T → Option T
  | Node.mk v _ _ _ => v

/-- Field `occupied` of a node (`bool occupied`). -/
def Node.occupied {T : Type} : Node T → Bool
  | Node.mk _ o _ _ => o

/-- Field `rank` of a node (`int rank`). -/
def Node.rank {T : Type} : Node T → Int
  | Node.mk _ _ r _ => r

/-- Field `children` of a node (`Node *children[256]`). -/
def Node.children {T : Type} : Node T → Nat → Option (Node T)
  | Node.mk _ _ _ c => c

/-- `Node::GetChild(index)`: returns `children[index]`. -/
def Node.GetChild {T : Type} (n : Node T) (b : Nat) : Option (Node T) :=
  n.children b

/-- `Node::Clear()`: null value, not occupied, rank 0, all children null. -/
def Node.cleared {T : Type} : Node T :=
  Node.mk none false 0 (fun _ => none)

/-- Assignment `children[index] = child` on a node, all other fields kept. -/
def Node.setChild {T : Type} (n : Node T) (b : Nat) (c : Node T) : Node T :=
  Node.mk n.value n.occupied n.rank (fun i => if i = b then some c else n.children i)

/-- The chain of nodes `Trie::Insert` allocates (via `AllocateChild`) once it
runs off the existing tree: one cleared node per remaining key byte, with the
terminal node then marked occupied and given the value and rank. -/
def buildPath {T : Type} (value : T) (rank : Int) : List Nat → Node T
  | [] => Node.mk (some value) true rank (fun _ => none)
  | b :: rest => Node.mk none false 0 (fun i => if i = b then some (buildPath value rank rest) else none)

/-- The walking loop of `Trie<T>::Insert` on the subtree rooted at `n` for the
remaining key bytes: follows existing children, allocates the missing tail,
and at the terminal node either fails (already occupied) or stores the value
and rank.  Returns the updated subtree and the success flag. -/
def insertNode {T : Type} (value : T) (rank : Int) : Node T → List Nat → Node T × Bool
  | n, [] =>
    if n.occupied = true then (n, false)
    else (Node.mk (some value) true rank n.children, true)
  | n, b :: rest =>
    match n.GetChild b with
    | none => (n.setChild b (buildPath value rank rest), true)
    | some c =>
      match insertNode value rank c rest with
      | (c2, ok) => (n.setChild b c2, ok)

/-- The candidate update performed at each visited node of `Trie<T>::Search`:
`if (curr_node->occupied) { if (!found_node || curr_node->rank <= found_node->rank) found_node = curr_node; }`. -/
def candUpd {T : Type} (best : Option (Node T)) (n : Node T) : Option (Node T) :=
  if n.occupied = true then
    (match best with
     | none => some n
     | some f => if n.rank ≤ f.rank then some n else some f)
  else best

/-- The walking loop of `Trie<T>::Search`: visit the current node (updating the
`found_node` candidate), stop when the key is exhausted or the next child is
absent, else descend. -/
def searchLoop {T : Type} : Option (Node T) → Node T → List Nat → Option (Node T)
  | best, n, [] => candUpd best n
  | best, n, b :: rest =>
    match n.GetChild b with
    | none => candUpd best n
    | some c => searchLoop (candUpd best n) c rest

/-- The tail of `Trie<T>::Search`: `if (found_node) return found_node->value; return nullptr;`. -/
def foundValue {T : Type} : Option (Node T) → Option T
  | some f => f.value
  | none => none

/-- The node reached by walking a key from `n` through existing children, if
the whole path exists (used to state that a key is stored in the trie). -/
def findNode {T : Type} : Node T → List Nat → Option (Node T)
  | n, [] => some n
  | n, b :: rest =>
    match n.GetChild b with
    | none => none
    | some c => findNode c rest

/-- C `strlen` on a byte sequence: length up to the first zero byte. -/
def strlen (ks : List Nat) : Nat :=
  (ks.takeWhile (fun b => decide (b ≠ 0))).length

/-- `Trie<T>::_CheckArgs`: a null key forces length 0; a defaulted length (-1)
becomes `strlen(key)`; otherwise the supplied length stands. -/
def CheckArgs (key : Option (List Nat)) (key_len : Int) : Int :=
  match key with
  | none => 0
  | some ks => if key_len = -1 then (strlen ks : Int) else key_len

/-- The key bytes the walking loops actually read: the first
`CheckArgs key key_len` bytes of the key buffer. -/
def effBytes (key : Option (List Nat)) (key_len : Int) : List Nat :=
  match key with
  | none => []
  | some ks => ks.take (CheckArgs key key_len).toNat

/-- The state of a `Trie<T>`: the root node and the insertion-ordered value
list (`Queue<T> m_value_list`). -/
structure Trie (T : Type) : Type where
  m_root : Node T
  m_value_list : List T

/-- A freshly constructed trie: `Trie() { m_root.Clear(); }` and an empty
value list. -/
def emptyTrie (T : Type) : Trie T :=
  Trie.mk Node.cleared []

/-- `Trie<T>::Insert(key, value, rank, key_len)`: check the arguments, walk
and update the tree, and on success enqueue the value on the value list. -/
def Trie.Insert {T : Type} (t : Trie T) (key : Option (List Nat)) (value : T) (rank : Int) (key_len : Int) : Trie T × Bool :=
  match insertNode value rank t.m_root (effBytes key key_len) with
  | (root2, true) => (Trie.mk root2 (t.m_value_list ++ [value]), true)
  | (root2, false) => (Trie.mk root2 t.m_value_list, false)

/-- `Trie<T>::Search(key, key_len)`: check the arguments, run the walking
loop from the root with no candidate, and return the candidate's value. -/
def Trie.Search {T : Type} (t : Trie T) (key : Option (List Nat)) (key_len : Int) : Option T :=
  foundValue (searchLoop none t.m_root (effBytes key key_len))

/-- `Trie<T>::Empty()`: `m_value_list.empty()`. -/
def Trie.Empty {T : Type} (t : Trie T) : Bool :=
  t.m_value_list.isEmpty

/-- `Trie<T>::Clear()`: pops and deletes every value on the value list, frees
all nodes, and resets the root to its cleared state.  The second component is
the sequence of values destroyed (each list entry deleted exactly once). -/
def Trie.Clear {T : Type} (t : Trie T) : Trie T × List T :=
  (Trie.mk Node.cleared [], t.m_value_list)

/-- Spec-side: the nodes `Search` visits, in order — the root, then one node
per key byte, stopping when the key is exhausted or a child is absent. -/
def visitedNodes {T : Type} : Node T → List Nat → List (Node T)
  | n, [] => [n]
  | n, b :: rest =>
    match n.GetChild b with
    | none => [n]
    | some c => n :: visitedNodes c rest

/-- Spec-side candidate rule, from the spec's words: the first occupied node
becomes the candidate; each later occupied node replaces it exactly when its
rank is numerically ≤ the candidate's rank. -/
def candStep {T : Type} (best : Option (Node T)) (m : Node T) : Option (Node T) :=
  match best with
  | none => some m
  | some f => if m.rank ≤ f.rank then some m else some f

/-- Spec-side search: fold the candidate rule over the occupied nodes among
the visited nodes, and return the final candidate's value. -/
def searchSpec {T : Type} (t : Trie T) (ks : List Nat) : Option T :=
  foundValue (((visitedNodes t.m_root ks).filter (fun m => m.occupied)).foldl candStep none)

/-- The nodes visited strictly before the terminal node of a key's path: the
nodes matching proper prefixes of the key, as far as the path exists. -/
def properVisited {T : Type} : Node T → List Nat → List (Node T)
  | _, [] => []
  | n, b :: rest =>
    n :: (match n.GetChild b with
          | none => []
          | some c => properVisited c rest)

/-- Well-formedness of a trie subtree: every occupied node holds a non-null
value.  Every trie reachable through `Insert` from the empty trie satisfies
this (values are stored as `some value`). -/
inductive NodeWF {T : Type} : Node T → Prop where
  | mk (v : Option T) (o : Bool) (r : Int) (c : Nat → Option (Node T))
      (hv : o = true → v.isSome = true)
      (hc : ∀ i m, c i = some m → NodeWF m) : NodeWF (Node.mk v o r c)

/-! Embedding of `RemapPlugins.cc`.  URLs are opaque; we model them as `Nat`.
A plugin invocation (`plugin->doRemap`) is external code: we model a plugin by
the status code it returns, whether it sets `rri.redirect`, and how it mutates
the request URL. -/

/-- A request URL, opaque to the executor. -/
abbrev ReqUrl := Nat

/-- Modelled from the spec: status code `TSREMAP_NO_REMAP` of the external
plugin API (the `TSRemapStatus` enum is not part of this core); the four codes
are the consecutive non-negative values 0..3, negative values are reserved for
errors. -/
def TSREMAP_NO_REMAP : Int := 0

/-- Modelled from the spec: status code `TSREMAP_DID_REMAP` of the external
plugin API. -/
def TSREMAP_DID_REMAP : Int := 1

/-- Modelled from the spec: status code `TSREMAP_NO_REMAP_STOP` of the
external plugin API. -/
def TSREMAP_NO_REMAP_STOP : Int := 2

/-- Modelled from the spec: status code `TSREMAP_DID_REMAP_STOP` of the
external plugin API. -/
def TSREMAP_DID_REMAP_STOP : Int := 3

/-- The observable behaviour of one plugin instance's `doRemap` call: the raw
status code it returns (any integer), whether it leaves `rri.redirect` set,
and the in-place mutation it applies to the request URL. -/
structure PluginBehavior : Type where
  retcode : Int
  redirect : Bool
  urlFn : ReqUrl → ReqUrl

/-- The executor state `run_single_remap` reads and writes: the plugin cursor
`_cur`, the counter `_rewritten`, the captured redirect target
`_s->remap_redirect` (null = `none`), and the current request URL. -/
structure RemapState : Type where
  cur : Nat
  rewritten : Nat
  remap_redirect : Option ReqUrl
  request_url : ReqUrl

/-- The matched mapping rule: its ordered plugin list
(`get_plugin_instance` / `plugin_instance_count`) and the rule's own base
from→to rewrite (`url_rewrite_remap_request`, external code, modelled as a
URL transformation). -/
structure UrlMapping : Type where
  plugins : List PluginBehavior
  baseRewrite : ReqUrl → ReqUrl

/-- `RemapPlugins::run_plugin`: invoke the plugin (mutating the request URL),
normalize a negative status to `TSREMAP_NO_REMAP`, then — first step after the
plugin — capture the current request URL as the redirect target when the
status is `TSREMAP_DID_REMAP` or `TSREMAP_DID_REMAP_STOP` and `rri.redirect`
is set.  Returns the (normalized) status and the new state. -/
def run_plugin (p : PluginBehavior) (st : RemapState) : Int × RemapState :=
  let url2 := p.urlFn st.request_url
  let rc := if p.retcode < 0 then TSREMAP_NO_REMAP else p.retcode
  let rr := if (rc = TSREMAP_DID_REMAP ∨ rc = TSREMAP_DID_REMAP_STOP) ∧ p.redirect = true
    then some url2 else st.remap_redirect
  (rc, RemapState.mk st.cur st.rewritten rr url2)

/-- `RemapPlugins::run_single_remap`: on the first call apply the rule's base
rewrite; run the plugin at the cursor if there is one (else the status stays
`TSREMAP_NO_REMAP`); advance the cursor; then, unless a redirect has been
captured, count a rewrite on `DID_REMAP`/`DID_REMAP_STOP`, stop on
`NO_REMAP_STOP`/`DID_REMAP_STOP`, finish when the cursor has passed the last
plugin, and otherwise report `continue` (false). -/
def run_single_remap (mp : UrlMapping) (st0 : RemapState) : Bool × RemapState :=
  let st1 := if st0.cur = 0 then RemapState.mk st0.cur st0.rewritten st0.remap_redirect (mp.baseRewrite st0.request_url) else st0
  let pr := match mp.plugins.get? st1.cur with
    | some p => run_plugin p st1
    | none => (TSREMAP_NO_REMAP, st1)
  let rc := pr.1
  let st2 := RemapState.mk (pr.2.cur + 1) pr.2.rewritten pr.2.remap_redirect pr.2.request_url
  if pr.2.remap_redirect.isSome = true then (true, st2)
  else
    let st3 := if rc = TSREMAP_DID_REMAP_STOP ∨ rc = TSREMAP_DID_REMAP then RemapState.mk st2.cur (st2.rewritten + 1) st2.remap_redirect st2.request_url else st2
    if rc = TSREMAP_NO_REMAP_STOP ∨ rc = TSREMAP_DID_REMAP_STOP then (true, st3)
    else if mp.plugins.length ≤ st3.cur then (true, st3)
    else (false, st3)

/-- Run `run_single_remap` a given number of times, collecting the returned
done/continue flags and the final state. -/
def runChain : Nat → UrlMapping → RemapState → List Bool × RemapState
  | 0, _, st => ([], st)
  | n + 1, mp, st =>
    match run_single_remap mp st with
    | (b, st2) =>
      match runChain n mp st2 with
      | (bs, st3) => (b :: bs, st3)

/-- Spec-side: whether one call to `run_single_remap` from the given state is
an invocation that counts as a rewrite — the plugin at the cursor exists, its
normalized status is `DID_REMAP` or `DID_REMAP_STOP`, and no redirect is
captured by (or survives into) the invocation. -/
def countedStep (mp : UrlMapping) (st0 : RemapState) : Nat :=
  let st1 := if st0.cur = 0 then RemapState.mk st0.cur st0.rewritten st0.remap_redirect (mp.baseRewrite st0.request_url) else st0
  match mp.plugins.get? st1.cur with
  | none => 0
  | some p =>
    let pr := run_plugin p st1
    if pr.2.remap_redirect = none ∧ (pr.1 = TSREMAP_DID_REMAP ∨ pr.1 = TSREMAP_DID_REMAP_STOP) then 1 else 0

/-- Spec-side: the number of counted rewrite invocations over a run of the
chain. -/
def countedRewrites : Nat → UrlMapping → RemapState → Nat
  | 0, _, _ => 0
  | n + 1, mp, st => countedStep mp st + countedRewrites n mp (run_single_remap mp st).2

/-- Concrete trie with key "a" (byte 97) at rank 5 holding value 10, and key
"ab" (bytes 97, 98) at rank 5 holding value 20. -/
def trieEqRanks : Trie Nat :=
  (Trie.Insert (Trie.Insert (emptyTrie Nat) (some [97]) 10 5 1).1 (some [97, 98]) 20 5 2).1

/-- Concrete trie with key "a" at rank 1 holding value 10, and key "ab" at
rank 5 holding value 20. -/
def trieLowRank : Trie Nat :=
  (Trie.Insert (Trie.Insert (emptyTrie Nat) (some [97]) 10 1 1).1 (some [97, 98]) 20 5 2).1

/-- Concrete trie holding only key "a" with value 10 at rank 5. -/
def trieSingleA : Trie Nat :=
  (Trie.Insert (emptyTrie Nat) (some [97]) 10 5 1).1

/-- A plugin that returns `TSREMAP_NO_REMAP`, signals no redirect, and leaves
the URL alone. -/
def pluginNoRemap : PluginBehavior :=
  PluginBehavior.mk TSREMAP_NO_REMAP false (fun u => u)

/-- A route with exactly three `NO_REMAP` plugins and an identity base
rewrite. -/
def mapThreeNoRemap : UrlMapping :=
  UrlMapping.mk [pluginNoRemap, pluginNoRemap, pluginNoRemap] (fun u => u)

/-- The executor state at the start of a chain: cursor 0, no rewrites, no
redirect captured. -/
def initState (u : ReqUrl) : RemapState :=
  RemapState.mk 0 0 none u

/-- A route with a single plugin that returns `TSREMAP_DID_REMAP` and signals
a redirect. -/
def mapOneRedirect : UrlMapping :=
  UrlMapping.mk [PluginBehavior.mk TSREMAP_DID_REMAP true (fun u => u)] (fun u => u)

/-- A route with a single plugin returning the out-of-range status 7 with the
redirect flag set. -/
def mapOneRogue : UrlMapping :=
  UrlMapping.mk [PluginBehavior.mk 7 true (fun u => u)] (fun u => u)

/-- The same route with the rogue plugin's status replaced by
`TSREMAP_NO_REMAP`. -/
def mapOneRogueNormalized : UrlMapping :=
  UrlMapping.mk [PluginBehavior.mk TSREMAP_NO_REMAP true (fun u => u)] (fun u => u)

/-- Concrete trie whose root is occupied: the zero-length key was inserted
with value 7 at rank 3. -/
def trieRootOccupied : Trie Nat :=
  (Trie.Insert (emptyTrie Nat) (some []) 7 3 0).1

/-! Helper lemmas on the node projections. -/

@[simp]
theorem Node.value_mk {T : Type} (v : Option T) (o : Bool) (r : Int) (c : Nat → Option (Node T)) : (Node.mk v o r c).value = v := rfl

@[simp]
theorem Node.occupied_mk {T : Type} (v : Option T) (o : Bool) (r : Int) (c : Nat → Option (Node T)) : (Node.mk v o r c).occupied = o := rfl

@[simp]
theorem Node.rank_mk {T : Type} (v : Option T) (o : Bool) (r : Int) (c : Nat → Option (Node T)) : (Node.mk v o r c).rank = r := rfl

@[simp]
theorem Node.children_mk {T : Type} (v : Option T) (o : Bool) (r : Int) (c : Nat → Option (Node T)) : (Node.mk v o r c).children = c := rfl

@[simp]
theorem Node.occupied_setChild {T : Type} (n : Node T) (b : Nat) (c : Node T) : (n.setChild b c).occupied = n.occupied := by
  cases n
  rfl

@[simp]
theorem Node.rank_setChild {T : Type} (n : Node T) (b : Nat) (c : Node T) : (n.setChild b c).rank = n.rank := by
  cases n
  rfl

@[simp]
theorem Node.value_setChild {T : Type} (n : Node T) (b : Nat) (c : Node T) : (n.setChild b c).value = n.value := by
  cases n
  rfl

theorem Node.GetChild_setChild {T : Type} (n : Node T) (b : Nat) (c : Node T) (i : Nat) :
    (n.setChild b c).GetChild i = if i = b then some c else n.GetChild i := by
  cases n
  rfl

theorem effBytes_some_length (ks : List Nat) : effBytes (some ks) (ks.length : Int) = ks := by
  have h : (ks.length : Int) ≠ -1 := by omega
  simp [effBytes, CheckArgs, h]

theorem searchLoop_cleared {T : Type} (ks : List Nat) :
    searchLoop (T := T) none Node.cleared ks = none := by
  cases ks with
  | nil => simp [searchLoop, candUpd, Node.cleared]
  | cons b rest => simp [searchLoop, candUpd, Node.cleared, Node.GetChild]

theorem searchLoop_eq_foldl {T : Type} :
    ∀ (ks : List Nat) (n : Node T) (best : Option (Node T)),
      searchLoop best n ks = ((visitedNodes n ks).filter (fun m => m.occupied)).foldl candStep best := by
  intro ks
  induction ks with
  | nil =>
    intro n best
    by_cases h : n.occupied = true
    · simp [searchLoop, visitedNodes, candUpd, candStep, h]
    · simp [searchLoop, visitedNodes, candUpd, candStep, h]
  | cons b rest ih =>
    intro n best
    cases hc : n.GetChild b with
    | none =>
      by_cases h : n.occupied = true
      · simp [searchLoop, visitedNodes, candUpd, candStep, h, hc]
      · simp [searchLoop, visitedNodes, candUpd, candStep, h, hc]
    | some c =>
      by_cases h : n.occupied = true
      · simp [searchLoop, visitedNodes, candUpd, candStep, h, hc, ih]
      · simp [searchLoop, visitedNodes, candUpd, candStep, h, hc, ih]

/-- C1: `Search` maintains a best-so-far candidate over the occupied nodes it
visits along the key's path — the first becomes the candidate, each later one
replaces it exactly when its rank is ≤ the candidate's — and on the concrete
examples: with "a" rank 5 / "ab" rank 5 stored, searching "ab" returns the
"ab" value (20); with "a" rank 1 / "ab" rank 5, searching "ab" returns the
"a" value (10). -/
theorem search_follows_candidate_rule :
    (∀ (T : Type) (t : Trie T) (ks : List Nat),
        Trie.Search t (some ks) (ks.length : Int) = searchSpec t ks) ∧
    Trie.Search trieEqRanks (some [97, 98]) 2 = some 20 ∧
    Trie.Search trieLowRank (some [97, 98]) 2 = some 10 := by
  refine ⟨?_, by decide, by decide⟩
  intro T t ks
  rw [Trie.Search, effBytes_some_length, searchSpec, searchLoop_eq_foldl]

/-- C8: `Clear` hands every stored value (the whole value list, each entry
exactly once) to destruction, leaves the trie empty with every search
failing, and a second `Clear` is a no-op on the emptied trie. -/
theorem clear_destroys_and_empties :
    ∀ (T : Type) (t : Trie T),
      (Trie.Clear t).2 = t.m_value_list ∧
      Trie.Empty (Trie.Clear t).1 = true ∧
      (∀ (key : Option (List Nat)) (key_len : Int),
          Trie.Search (Trie.Clear t).1 key key_len = none) ∧
      Trie.Clear (Trie.Clear t).1 = ((Trie.Clear t).1, []) := by
  intro T t
  refine ⟨rfl, rfl, ?_, rfl⟩
  intro key key_len
  simp [Trie.Search, Trie.Clear, searchLoop_cleared, foundValue]

/-- C9: for every supplied length, `Insert` and `Search` called with a null
key behave exactly as the same call with a zero-length key targeting the
root. -/
theorem null_key_is_zero_length :
    ∀ (T : Type) (t : Trie T) (v : T) (r : Int) (key_len : Int),
      Trie.Insert t none v r key_len = Trie.Insert t (some []) v r 0 ∧
      Trie.Search t none key_len = Trie.Search t (some []) 0 := by
  intro T t v r key_len
  exact ⟨rfl, rfl⟩


theorem candUpd_rank_bound {T : Type} {r : Int} {best : Option (Node T)} {n : Node T}
    (hb : ∀ f, best = some f → r ≤ f.rank) (hn : n.occupied = true → r ≤ n.rank) :
    ∀ f, candUpd best n = some f → r ≤ f.rank := by
  intro f hf
  by_cases ho : n.occupied = true
  · cases best with
    | none =>
      simp only [candUpd, ho, if_true] at hf
      simp at hf
      subst hf
      exact hn ho
    | some g =>
      simp only [candUpd, ho, if_true] at hf
      by_cases hle : n.rank ≤ g.rank
      · simp [hle] at hf
        subst hf
        exact hn ho
      · simp [hle] at hf
        subst hf
        exact hb g rfl
  · simp only [candUpd, ho] at hf
    simp at hf
    exact hb f hf

theorem searchLoop_buildPath {T : Type} (v : T) (r : Int) :
    ∀ (rest : List Nat) (best : Option (Node T)),
      (∀ f, best = some f → r ≤ f.rank) →
      foundValue (searchLoop best (buildPath v r rest) rest) = some v := by
  intro rest
  induction rest with
  | nil =>
    intro best hb
    cases best with
    | none => simp [searchLoop, buildPath, candUpd, foundValue]
    | some f => simp [searchLoop, buildPath, candUpd, foundValue, hb f rfl]
  | cons b rest ih =>
    intro best hb
    have hch : (buildPath v r (b :: rest)).GetChild b = some (buildPath v r rest) := by
      simp [buildPath, Node.GetChild]
    have hocc : (buildPath v r (b :: rest)).occupied = false := by
      simp [buildPath]
    rw [searchLoop, hch]
    have hcand : candUpd best (buildPath v r (b :: rest)) = best := by
      simp [candUpd, hocc]
    rw [hcand]
    exact ih best hb

theorem insertNode_searchLoop {T : Type} (v : T) (r : Int) :
    ∀ (ks : List Nat) (n : Node T) (best : Option (Node T)),
      (insertNode v r n ks).2 = true →
      (∀ m, m ∈ properVisited n ks → m.occupied = true → r ≤ m.rank) →
      (∀ f, best = some f → r ≤ f.rank) →
      foundValue (searchLoop best (insertNode v r n ks).1 ks) = some v := by
  intro ks
  induction ks with
  | nil =>
    intro n best hs hp hb
    by_cases ho : n.occupied = true
    · rw [insertNode, if_pos ho] at hs
      exact absurd hs (by simp)
    · rw [insertNode, if_neg ho]
      rw [searchLoop]
      cases best with
      | none => simp [candUpd, foundValue]
      | some f => simp [candUpd, foundValue, hb f rfl]
  | cons b rest ih =>
    intro n best hs hp hb
    have hhead : n.occupied = true → r ≤ n.rank := by
      intro ho
      refine hp n ?_ ho
      simp [properVisited]
    cases hc : n.GetChild b with
    | none =>
      simp only [insertNode, hc] at hs ⊢
      have hch : ((n.setChild b (buildPath v r rest)).GetChild b) = some (buildPath v r rest) := by
        rw [Node.GetChild_setChild]
        simp
      rw [searchLoop, hch]
      refine searchLoop_buildPath v r rest _ ?_
      refine candUpd_rank_bound hb ?_
      rw [Node.occupied_setChild, Node.rank_setChild]
      exact hhead
    | some c =>
      simp only [insertNode, hc] at hs ⊢
      cases hrec : insertNode v r c rest with
      | mk c2 ok =>
        rw [hrec] at hs
        simp only at hs ⊢
        have hch : ((n.setChild b c2).GetChild b) = some c2 := by
          rw [Node.GetChild_setChild]
          simp
        rw [searchLoop, hch]
        have htail : ∀ m, m ∈ properVisited c rest → m.occupied = true → r ≤ m.rank := by
          intro m hm ho
          refine hp m ?_ ho
          simp [properVisited, hc]
          exact Or.inr hm
        have hok : (insertNode v r c rest).2 = true := by rw [hrec]; exact hs
        have hc2 : c2 = (insertNode v r c rest).1 := by rw [hrec]
        rw [hc2]
        refine ih c _ hok htail ?_
        refine candUpd_rank_bound hb ?_
        rw [Node.occupied_setChild, Node.rank_setChild]
        exact hhead

/-- C6 amended: if `Insert(K, V, R)` succeeds and additionally no stored
proper prefix of K on K's path has a rank strictly below R, then `Search(K)`
with length `len(K)` returns V.  (Without the rank condition the claim fails:
see the counterexample, where a shorter prefix of strictly lower rank blocks
the override.) -/
theorem insert_then_search_returns_value :
    ∀ (T : Type) (t : Trie T) (ks : List Nat) (v : T) (r : Int),
      (Trie.Insert t (some ks) v r (ks.length : Int)).2 = true →
      (∀ m, m ∈ properVisited t.m_root ks → m.occupied = true → r ≤ m.rank) →
      Trie.Search (Trie.Insert t (some ks) v r (ks.length : Int)).1 (some ks) (ks.length : Int) = some v := by
  intro T t ks v r hs hp
  rw [Trie.Search, effBytes_some_length]
  simp only [Trie.Insert, effBytes_some_length] at hs ⊢
  cases hins : insertNode v r t.m_root ks with
  | mk root2 ok =>
    cases ok with
    | false =>
      rw [hins] at hs
      simp at hs
    | true =>
      have hroot : root2 = (insertNode v r t.m_root ks).1 := by rw [hins]
      have hok : (insertNode v r t.m_root ks).2 = true := by rw [hins]
      show foundValue (searchLoop none root2 ks) = some v
      rw [hroot]
      refine insertNode_searchLoop v r ks t.m_root none hok hp ?_
      intro f h
      cases h

/-- C6 counterexample: into the trie holding "a" (value 10, rank 1), the
insert of "ab" (value 20, rank 5) succeeds and is a fresh key, yet searching
"ab" with matching length returns 10, the value of "a", not 20. -/
theorem insert_search_roundtrip_counterexample :
    (Trie.Insert (Trie.Insert (emptyTrie Nat) (some [97]) 10 1 1).1 (some [97, 98]) 20 5 2).2 = true ∧
    trieLowRank = (Trie.Insert (Trie.Insert (emptyTrie Nat) (some [97]) 10 1 1).1 (some [97, 98]) 20 5 2).1 ∧
    Trie.Search trieLowRank (some [97, 98]) 2 = some 10 ∧
    ¬ (Trie.Search trieLowRank (some [97, 98]) 2 = some 20) := by
  refine ⟨by decide, rfl, by decide, by decide⟩

/-- Witness for C6's theorem: inserting "a" into the empty trie and searching
it back. -/
theorem insert_then_search_witness :
    Trie.Search (Trie.Insert (emptyTrie Nat) (some [97]) 10 5 1).1 (some [97]) 1 = some 10 := by
  refine insert_then_search_returns_value Nat (emptyTrie Nat) [97] 10 5 (by decide) ?_
  intro m hm
  have hm2 : m = Node.cleared := by
    simpa [properVisited, emptyTrie, Node.GetChild, Node.cleared] using hm
  subst hm2
  intro ho
  simp [Node.cleared] at ho

theorem setChild_self {T : Type} (n : Node T) (b : Nat) (c : Node T) (h : n.GetChild b = some c) : n.setChild b c = n := by
  cases n with
  | mk v o r ch =>
    have hch : (fun i => if i = b then some c else ch i) = ch := by
      funext i
      by_cases hib : i = b
      · subst hib
        rw [if_pos rfl]
        exact h.symm
      · rw [if_neg hib]
    show Node.mk v o r (fun i => if i = b then some c else ch i) = Node.mk v o r ch
    rw [hch]

theorem insertNode_dup {T : Type} (v : T) (r : Int) :
    ∀ (ks : List Nat) (n m : Node T),
      findNode n ks = some m → m.occupied = true →
      insertNode v r n ks = (n, false) := by
  intro ks
  induction ks with
  | nil =>
    intro n m hf ho
    have hnm : n = m := by simpa [findNode] using hf
    subst hnm
    rw [insertNode, if_pos ho]
  | cons b rest ih =>
    intro n m hf ho
    cases hc : n.GetChild b with
    | none =>
      simp only [findNode, hc] at hf
      exact Option.noConfusion hf
    | some c =>
      simp only [findNode, hc] at hf
      have hrec := ih c m hf ho
      simp only [insertNode, hc, hrec, setChild_self n b c hc]

/-- C7: if the key is already stored (its full path exists and the terminal
node is occupied), a second `Insert` returns false and the trie — root and
value list — is exactly unchanged, so the prior value stays retrievable and
the rejected value is not enqueued. -/
theorem duplicate_insert_rejected :
    ∀ (T : Type) (t : Trie T) (ks : List Nat) (v : T) (r : Int),
      (∃ m, findNode t.m_root ks = some m ∧ m.occupied = true) →
      Trie.Insert t (some ks) v r (ks.length : Int) = (t, false) := by
  intro T t ks v r h
  obtain ⟨m, hf, ho⟩ := h
  have hd := insertNode_dup v r ks t.m_root m hf ho
  simp only [Trie.Insert, effBytes_some_length, hd]

/-- Witness for C7's theorem: re-inserting "a" into the trie already holding
"a" fails and leaves the trie unchanged. -/
theorem duplicate_insert_rejected_witness :
    Trie.Insert trieSingleA (some [97]) 11 2 1 = (trieSingleA, false) :=
  duplicate_insert_rejected Nat trieSingleA [97] 11 2 ⟨Node.mk (some 10) true 5 (fun _ => none), rfl, rfl⟩

theorem NodeWF.value_of_occupied {T : Type} {n : Node T} (h : NodeWF n) (ho : n.occupied = true) : n.value.isSome = true := by
  cases h with
  | mk v o r c hv hc => exact hv ho

theorem NodeWF.child_wf {T : Type} {n : Node T} {i : Nat} {m : Node T} (h : NodeWF n) (hm : n.GetChild i = some m) : NodeWF m := by
  cases h with
  | mk v o r c hv hc => exact hc i m hm

theorem candUpd_isSome {T : Type} {best : Option (Node T)} {n : Node T}
    (h : best.isSome = true ∨ n.occupied = true) : (candUpd best n).isSome = true := by
  by_cases ho : n.occupied = true
  · cases best with
    | none => simp [candUpd, ho]
    | some g =>
      simp only [candUpd, ho, if_true]
      by_cases hle : n.rank ≤ g.rank
      · simp [hle]
      · simp [hle]
  · cases best with
    | none =>
      rcases h with h | h
      · simp at h
      · exact absurd h ho
    | some g => simp [candUpd, ho]

theorem candUpd_value_isSome {T : Type} {best : Option (Node T)} {n : Node T}
    (hb : ∀ f, best = some f → f.value.isSome = true)
    (hn : n.occupied = true → n.value.isSome = true) :
    ∀ f, candUpd best n = some f → f.value.isSome = true := by
  intro f hf
  by_cases ho : n.occupied = true
  · cases best with
    | none =>
      simp only [candUpd, ho, if_true] at hf
      simp at hf
      subst hf
      exact hn ho
    | some g =>
      simp only [candUpd, ho, if_true] at hf
      by_cases hle : n.rank ≤ g.rank
      · simp [hle] at hf
        subst hf
        exact hn ho
      · simp [hle] at hf
        subst hf
        exact hb g rfl
  · simp only [candUpd, ho] at hf
    simp at hf
    exact hb f hf

theorem foundValue_candUpd_isSome {T : Type} {best : Option (Node T)} {n : Node T}
    (hwf : NodeWF n)
    (hb : ∀ f, best = some f → f.value.isSome = true)
    (hd : best.isSome = true ∨ n.occupied = true) :
    (foundValue (candUpd best n)).isSome = true := by
  have h1 : (candUpd best n).isSome = true := candUpd_isSome hd
  have h2 := candUpd_value_isSome hb (fun ho => hwf.value_of_occupied ho)
  cases hcu : candUpd best n with
  | none =>
    rw [hcu] at h1
    simp at h1
  | some f => exact h2 f hcu

theorem searchLoop_wf {T : Type} :
    ∀ (ks : List Nat) (n : Node T) (best : Option (Node T)),
      NodeWF n →
      (∀ f, best = some f → f.value.isSome = true) →
      (best.isSome = true ∨ n.occupied = true) →
      (foundValue (searchLoop best n ks)).isSome = true := by
  intro ks
  induction ks with
  | nil =>
    intro n best hwf hb hd
    rw [searchLoop]
    exact foundValue_candUpd_isSome hwf hb hd
  | cons b rest ih =>
    intro n best hwf hb hd
    cases hc : n.GetChild b with
    | none =>
      rw [searchLoop, hc]
      exact foundValue_candUpd_isSome hwf hb hd
    | some c =>
      rw [searchLoop, hc]
      exact ih c (candUpd best n) (hwf.child_wf hc)
        (candUpd_value_isSome hb (fun ho => hwf.value_of_occupied ho))
        (Or.inl (candUpd_isSome hd))

/-- C10: if the root node is occupied (and the trie is well formed, as every
trie built through `Insert` is: occupied nodes hold non-null values), then
`Search` returns a non-null value for every key and every length — the root
is inspected as the first candidate before any key byte is consumed. -/
theorem occupied_root_search_never_fails :
    ∀ (T : Type) (t : Trie T), NodeWF t.m_root → t.m_root.occupied = true →
      ∀ (key : Option (List Nat)) (key_len : Int),
        (Trie.Search t key key_len).isSome = true := by
  intro T t hwf ho key key_len
  rw [Trie.Search]
  refine searchLoop_wf (effBytes key key_len) t.m_root none hwf ?_ (Or.inr ho)
  intro f h
  cases h

/-- Witness for C10's theorem: the trie with the zero-length key inserted at
the root, searched with an unrelated two-byte key. -/
theorem occupied_root_search_never_fails_witness :
    (Trie.Search trieRootOccupied (some [5, 6]) 2).isSome = true :=
  occupied_root_search_never_fails Nat trieRootOccupied
    (NodeWF.mk (some 7) true 3 (fun _ => none) (fun _ => rfl) (fun _ _ h => Option.noConfusion h))
    rfl (some [5, 6]) 2

theorem baseRewrite_step (mp : UrlMapping) (st : RemapState) :
    (if st.cur = 0 then RemapState.mk st.cur st.rewritten st.remap_redirect (mp.baseRewrite st.request_url) else st) =
      RemapState.mk st.cur st.rewritten st.remap_redirect (if st.cur = 0 then mp.baseRewrite st.request_url else st.request_url) := by
  by_cases h : st.cur = 0
  · simp [h]
  · simp [h]

/-- C5: when the plugin at the cursor signals a redirect and its status is
`DID_REMAP` or `DID_REMAP_STOP` (for these values the normalized status
equals the raw one), the call captures the request URL as it stands after the
plugin ran as the redirect target, reports done, and performs none of the
continuation logic (in particular the rewrite counter is untouched),
regardless of how many plugins remain. -/
theorem redirect_short_circuits :
    ∀ (mp : UrlMapping) (st : RemapState) (p : PluginBehavior),
      mp.plugins.get? st.cur = some p →
      p.redirect = true →
      (p.retcode = TSREMAP_DID_REMAP ∨ p.retcode = TSREMAP_DID_REMAP_STOP) →
      (run_single_remap mp st).1 = true ∧
      (run_single_remap mp st).2.remap_redirect =
        some (p.urlFn (if st.cur = 0 then mp.baseRewrite st.request_url else st.request_url)) ∧
      (run_single_remap mp st).2.rewritten = st.rewritten := by
  intro mp st p hp hr hrc
  rw [List.get?_eq_getElem?] at hp
  have hnn : ¬ (p.retcode < 0) := by
    rcases hrc with h | h <;> rw [h] <;> decide
  rcases hrc with h | h <;>
    simp [run_single_remap, run_plugin, baseRewrite_step, hp, hr, h, hnn,
      TSREMAP_NO_REMAP, TSREMAP_DID_REMAP, TSREMAP_NO_REMAP_STOP, TSREMAP_DID_REMAP_STOP]

/-- Witness for C5's theorem: a one-plugin route whose plugin returns
`DID_REMAP` with the redirect flag set. -/
theorem redirect_short_circuits_witness :
    (run_single_remap mapOneRedirect (initState 42)).1 = true ∧
    (run_single_remap mapOneRedirect (initState 42)).2.remap_redirect =
      some ((PluginBehavior.mk TSREMAP_DID_REMAP true (fun u => u)).urlFn
        (if (initState 42).cur = 0 then mapOneRedirect.baseRewrite (initState 42).request_url else (initState 42).request_url)) ∧
    (run_single_remap mapOneRedirect (initState 42)).2.rewritten = (initState 42).rewritten :=
  redirect_short_circuits mapOneRedirect (initState 42)
    (PluginBehavior.mk TSREMAP_DID_REMAP true (fun u => u)) rfl rfl (Or.inl rfl)

/-- C2 amended: a route with exactly 3 plugins, each returning `NO_REMAP`
with no redirect, drives `run_single_remap` (from cursor 0) through exactly
2 `continue` results (false) followed by one `done` (true): the call that
runs the last plugin already reports done, because the cursor is advanced
before the exhaustion check.  The rewrite counter ends at 0. -/
theorem three_noremap_chain :
    ∀ (f1 f2 f3 g : ReqUrl → ReqUrl) (u : ReqUrl),
      (runChain 3 (UrlMapping.mk [PluginBehavior.mk TSREMAP_NO_REMAP false f1,
          PluginBehavior.mk TSREMAP_NO_REMAP false f2,
          PluginBehavior.mk TSREMAP_NO_REMAP false f3] g) (RemapState.mk 0 0 none u)).1 =
        [false, false, true] ∧
      (runChain 3 (UrlMapping.mk [PluginBehavior.mk TSREMAP_NO_REMAP false f1,
          PluginBehavior.mk TSREMAP_NO_REMAP false f2,
          PluginBehavior.mk TSREMAP_NO_REMAP false f3] g) (RemapState.mk 0 0 none u)).2.rewritten = 0 := by
  intro f1 f2 f3 g u
  constructor <;>
    simp [runChain, run_single_remap, run_plugin,
      TSREMAP_NO_REMAP, TSREMAP_DID_REMAP, TSREMAP_NO_REMAP_STOP, TSREMAP_DID_REMAP_STOP]

/-- C2 counterexample: with three `NO_REMAP` plugins the three successive
calls return false, false, true — not three `continue` results. -/
theorem three_noremap_counterexample :
    (runChain 3 mapThreeNoRemap (initState 0)).1 = [false, false, true] ∧
    ¬ ((runChain 3 mapThreeNoRemap (initState 0)).1 = [false, false, false]) := by
  constructor <;> decide

theorem run_single_remap_rewritten (mp : UrlMapping) (st : RemapState) :
    (run_single_remap mp st).2.rewritten = st.rewritten + countedStep mp st := by
  simp only [run_single_remap, countedStep, baseRewrite_step]
  cases hget : mp.plugins.get? st.cur with
  | none =>
    simp only [hget]
    simp [TSREMAP_NO_REMAP, TSREMAP_NO_REMAP_STOP, TSREMAP_DID_REMAP_STOP, TSREMAP_DID_REMAP]
    split_ifs <;> simp
  | some p =>
    simp only [hget]
    have hrw : (run_plugin p (RemapState.mk st.cur st.rewritten st.remap_redirect (if st.cur = 0 then mp.baseRewrite st.request_url else st.request_url))).2.rewritten = st.rewritten := rfl
    generalize hS : run_plugin p (RemapState.mk st.cur st.rewritten st.remap_redirect (if st.cur = 0 then mp.baseRewrite st.request_url else st.request_url)) = S
    rw [hS] at hrw
    cases S with
    | mk rc S2 =>
      cases S2 with
      | mk c2 w2 rr2 u2 =>
        simp only at hrw
        subst hrw
        cases rr2 with
        | none =>
          simp only [TSREMAP_NO_REMAP, TSREMAP_NO_REMAP_STOP, TSREMAP_DID_REMAP_STOP, TSREMAP_DID_REMAP]
          split_ifs <;> simp_all
        | some v =>
          simp only [TSREMAP_NO_REMAP, TSREMAP_NO_REMAP_STOP, TSREMAP_DID_REMAP_STOP, TSREMAP_DID_REMAP]
          split_ifs <;> simp_all

theorem runChain_succ (n : Nat) (mp : UrlMapping) (st : RemapState) :
    runChain (n + 1) mp st =
      ((run_single_remap mp st).1 :: (runChain n mp (run_single_remap mp st).2).1,
       (runChain n mp (run_single_remap mp st).2).2) := by
  cases h1 : run_single_remap mp st with
  | mk b st2 =>
    cases h2 : runChain n mp st2 with
    | mk bs st3 => simp [runChain, h1, h2]

/-- C4 amended: at every point of a chain run, the rewrite counter equals its
starting value plus the number of invocations so far whose normalized status
was `DID_REMAP` or `DID_REMAP_STOP` and at which no redirect was captured —
the invocation that captures a redirect is not counted, because the counter
update sits behind the no-redirect check. -/
theorem rewritten_equals_counted :
    ∀ (n : Nat) (mp : UrlMapping) (st : RemapState),
      (runChain n mp st).2.rewritten = st.rewritten + countedRewrites n mp st := by
  intro n
  induction n with
  | zero =>
    intro mp st
    simp [runChain, countedRewrites]
  | succ k ih =>
    intro mp st
    rw [runChain_succ, countedRewrites]
    simp only
    rw [ih, run_single_remap_rewritten]
    omega

/-- C4 counterexample: a single plugin returning `DID_REMAP` with the
redirect flag set has its redirect captured, yet the rewrite counter stays 0
after the call — the redirect-capturing invocation is not counted, while the
claim demands a count of 1. -/
theorem redirect_invocation_not_counted :
    (run_plugin (PluginBehavior.mk TSREMAP_DID_REMAP true (fun u => u)) (initState 42)).1 = TSREMAP_DID_REMAP ∧
    (run_single_remap mapOneRedirect (initState 42)).2.remap_redirect.isSome = true ∧
    (run_single_remap mapOneRedirect (initState 42)).2.rewritten = 0 ∧
    ¬ ((run_single_remap mapOneRedirect (initState 42)).2.rewritten = 1) := by
  refine ⟨by decide, by decide, by decide, by decide⟩

/-- C3 amended: `run_plugin` normalizes only negative status codes to
`NO_REMAP`; a non-negative status is returned unchanged, even when it is not
one of the four codes.  However, a status outside the four codes drives
`run_single_remap` exactly as `NO_REMAP` does: replacing such a plugin's
status by `NO_REMAP` yields the identical call result and state. -/
theorem status_normalization :
    (∀ (p : PluginBehavior) (st : RemapState), p.retcode < 0 → (run_plugin p st).1 = TSREMAP_NO_REMAP) ∧
    (∀ (p : PluginBehavior) (st : RemapState), 0 ≤ p.retcode → (run_plugin p st).1 = p.retcode) ∧
    (∀ (mp mp2 : UrlMapping) (st : RemapState) (p : PluginBehavior),
      mp.plugins.get? st.cur = some p →
      mp2.plugins.get? st.cur = some (PluginBehavior.mk TSREMAP_NO_REMAP p.redirect p.urlFn) →
      mp2.plugins.length = mp.plugins.length →
      mp2.baseRewrite = mp.baseRewrite →
      ¬ (p.retcode = TSREMAP_NO_REMAP ∨ p.retcode = TSREMAP_DID_REMAP ∨
         p.retcode = TSREMAP_NO_REMAP_STOP ∨ p.retcode = TSREMAP_DID_REMAP_STOP) →
      run_single_remap mp2 st = run_single_remap mp st) := by
  refine ⟨?_, ?_, ?_⟩
  · intro p st h
    simp [run_plugin, h]
  · intro p st h
    simp [run_plugin, not_lt.mpr h]
  · intro mp mp2 st p hp hq hlen hbase hoor
    rw [List.get?_eq_getElem?] at hp hq
    push_neg at hoor
    obtain ⟨h0, h1, h2, h3⟩ := hoor
    simp only [TSREMAP_NO_REMAP, TSREMAP_DID_REMAP, TSREMAP_NO_REMAP_STOP, TSREMAP_DID_REMAP_STOP] at h0 h1 h2 h3 ⊢
    by_cases hneg : p.retcode < 0
    · simp [run_single_remap, run_plugin, baseRewrite_step, hp, hq, hbase, hlen, hneg,
        TSREMAP_NO_REMAP, TSREMAP_DID_REMAP, TSREMAP_NO_REMAP_STOP, TSREMAP_DID_REMAP_STOP]
    · simp [run_single_remap, run_plugin, baseRewrite_step, hp, hq, hbase, hlen, hneg,
        h0, h1, h2, h3,
        TSREMAP_NO_REMAP, TSREMAP_DID_REMAP, TSREMAP_NO_REMAP_STOP, TSREMAP_DID_REMAP_STOP]

/-- C3 counterexample: a plugin returning the out-of-range positive status 7
has that value returned unchanged by `run_plugin` — it is not normalized to
`NO_REMAP`, and the status the executor acts on is not one of the four
codes. -/
theorem rogue_status_counterexample :
    (run_plugin (PluginBehavior.mk 7 true (fun u => u)) (initState 0)).1 = 7 ∧
    ¬ ((run_plugin (PluginBehavior.mk 7 true (fun u => u)) (initState 0)).1 = TSREMAP_NO_REMAP ∨
       (run_plugin (PluginBehavior.mk 7 true (fun u => u)) (initState 0)).1 = TSREMAP_DID_REMAP ∨
       (run_plugin (PluginBehavior.mk 7 true (fun u => u)) (initState 0)).1 = TSREMAP_NO_REMAP_STOP ∨
       (run_plugin (PluginBehavior.mk 7 true (fun u => u)) (initState 0)).1 = TSREMAP_DID_REMAP_STOP) := by
  refine ⟨by decide, by decide⟩

/-- Witness for C3's theorem: a negative status is normalized, a positive one
passed through, and the rogue one-plugin route behaves exactly as its
`NO_REMAP`-normalized twin. -/
theorem status_normalization_witness :
    (run_plugin (PluginBehavior.mk (-3) false (fun u => u)) (initState 5)).1 = TSREMAP_NO_REMAP ∧
    (run_plugin (PluginBehavior.mk 7 true (fun u => u)) (initState 5)).1 = 7 ∧
    run_single_remap mapOneRogueNormalized (initState 0) = run_single_remap mapOneRogue (initState 0) :=
  ⟨status_normalization.1 (PluginBehavior.mk (-3) false (fun u => u)) (initState 5) (by decide),
   status_normalization.2.1 (PluginBehavior.mk 7 true (fun u => u)) (initState 5) (by decide),
   status_normalization.2.2 mapOneRogue mapOneRogueNormalized (initState 0)
     (PluginBehavior.mk 7 true (fun u => u)) rfl rfl rfl rfl (by decide)⟩

theorem nodeWF_cleared {T : Type} : NodeWF (Node.cleared (T := T)) :=
  NodeWF.mk none false 0 (fun _ => none) (fun h => Bool.noConfusion h) (fun _ _ h => Option.noConfusion h)

theorem nodeWF_buildPath {T : Type} (v : T) (r : Int) :
    ∀ (rest : List Nat), NodeWF (buildPath v r rest) := by
  intro rest
  induction rest with
  | nil => exact NodeWF.mk (some v) true r (fun _ => none) (fun _ => rfl) (fun _ _ h => Option.noConfusion h)
  | cons b rest ih =>
    refine NodeWF.mk none false 0 _ (fun h => Bool.noConfusion h) ?_
    intro i m h
    by_cases hib : i = b
    · rw [if_pos hib] at h
      cases h
      exact ih
    · rw [if_neg hib] at h
      exact Option.noConfusion h

theorem nodeWF_setChild {T : Type} {n c : Node T} (b : Nat) (hn : NodeWF n) (hc2 : NodeWF c) :
    NodeWF (n.setChild b c) := by
  cases hn with
  | mk v0 o0 r0 c0 hv hcc =>
    refine NodeWF.mk v0 o0 r0 _ hv ?_
    intro i m h
    by_cases hib : i = b
    · rw [if_pos hib] at h
      cases h
      exact hc2
    · rw [if_neg hib] at h
      exact hcc i m h

theorem nodeWF_insertNode {T : Type} (v : T) (r : Int) :
    ∀ (ks : List Nat) (n : Node T), NodeWF n → NodeWF (insertNode v r n ks).1 := by
  intro ks
  induction ks with
  | nil =>
    intro n hwf
    by_cases ho : n.occupied = true
    · rw [insertNode, if_pos ho]
      exact hwf
    · rw [insertNode, if_neg ho]
      cases hwf with
      | mk v0 o0 r0 c0 hv hcc => exact NodeWF.mk (some v) true r c0 (fun _ => rfl) hcc
  | cons b rest ih =>
    intro n hwf
    cases hc : n.GetChild b with
    | none =>
      simp only [insertNode, hc]
      exact nodeWF_setChild b hwf (nodeWF_buildPath v r rest)
    | some c =>
      simp only [insertNode, hc]
      cases hrec : insertNode v r c rest with
      | mk c2 ok =>
        simp only
        have hwc2 : NodeWF c2 := by
          have h2 := ih c (hwf.child_wf hc)
          rw [hrec] at h2
          exact h2
        exact nodeWF_setChild b hwf hwc2

/-- Every trie reachable through `Insert` satisfies the well-formedness used
in the occupied-root theorem: `emptyTrie` is well formed and `Insert`
preserves well-formedness of the root. -/
theorem trie_wf_reachable {T : Type} :
    NodeWF (emptyTrie T).m_root ∧
    ∀ (t : Trie T) (key : Option (List Nat)) (v : T) (r : Int) (kl : Int),
      NodeWF t.m_root → NodeWF (Trie.Insert t key v r kl).1.m_root := by
  refine ⟨nodeWF_cleared, ?_⟩
  intro t key v r kl h
  have h2 := nodeWF_insertNode v r (effBytes key kl) t.m_root h
  cases hins : insertNode v r t.m_root (effBytes key kl) with
  | mk root2 ok =>
    rw [hins] at h2
    cases ok with
    | true =>
      simp only [Trie.Insert, hins]
      exact h2
    | false =>
      simp only [Trie.Insert, hins]
      exact h2
